import Mathlib

/-!
Verification of the locale-merging pipeline of `crates/support/src/merge_locales.rs`
(rust-i18n).  The format-neutral value model, the deep merge, the document-set
resolver and the serialization driver are embedded shallowly; external
collaborators (file system, per-format serialization libraries) are modelled
at the interface the specification gives them.
-/

set_option autoImplicit false

namespace MergeLocales

/-- The format-neutral value tree, mirroring `serde_json::Value`:
Null, Bool, Number, String, Array, Object (an ordered list of string keys,
each mapped to one Value). Numbers are modelled as integers. -/
inductive Value where
  | null : Value
  | bool : Bool → Value
  | number : Int → Value
  | string : String → Value
  | array : List Value → Value
  | object : List (String × Value) → Value
deriving Repr

/-- Lookup of a key in an object's field list (first match wins),
mirroring `serde_json::Map::get`. -/
def findValue (k : String) : List (String × Value) → Option Value
  | [] => none
  | (k2, v) :: rest => if k == k2 then some v else findValue k rest

mutual
/-- Modelled from the spec: `merge_value` (declared in the support crate but
not present under `src/`).  Spec §4.4: if both `a` and `b` are Mapping, the
result keeps every key present only in `a` unchanged (in `a`'s order), sets
every shared key to the recursive merge, and appends every key present only
in `b` unchanged, in `b`'s order; in every other case the result is `b`
outright. -/
def merge_value : Value → Value → Value
  | .object a, .object b =>
      .object (mergeFieldsA a b ++ b.filter (fun kw => (findValue kw.1 a).isNone))
  | _, b => b
termination_by a _ => sizeOf a

/-- Modelled from the spec: the `a`-side of the Mapping/Mapping case of
`merge_value`: `a`'s fields in order, shared keys recursively merged. -/
def mergeFieldsA : List (String × Value) → List (String × Value) → List (String × Value)
  | [], _ => []
  | (k, v) :: rest, b =>
      (match findValue k b with
       | some w => (k, merge_value v w)
       | none => (k, v)) :: mergeFieldsA rest b
termination_by a _ => sizeOf a
end

/-- The seed of the merge fold: `serde_json::Value::default()`, whose
documented value is `Value::Null`. -/
def serde_json_default : Value := Value.null

/-- A file reference, modelling `std::path::Path` at the granularity the
resolver uses it: a parent directory, a file stem, and an extension.
`Path::parent` returns `parent`, `Path::extension` returns `ext`, and
joining the parent with a file name `TODO.<ext>` yields
`⟨parent, "TODO", ext⟩`. -/
structure FPath where
  parent : String
  stem : String
  ext : String
deriving Repr, DecidableEq

/-- Modelled from the spec: `get_extension` (declared in the support crate
but not present under `src/`).  Spec §6: format identification is derived
purely from the file reference's extension. -/
def get_extension (p : FPath) : String := p.ext

/-- The supported-extension table of `get_locales_files_path`:
`["yml", "yaml", "json", "toml"]`. -/
def all_support_ext : List String := ["yml", "yaml", "json", "toml"]

/-- `get_locales_files_path` from `merge_locales.rs`.  `files.first().unwrap()`
panics on an empty slice; the panic is modelled as `none`.  With two or more
references, each reference whose extension is in `all_support_ext` is pushed
in order; with one reference, a `TODO.<ext>` sibling is pushed for the
matching supported extension, followed by the supplied file. -/
def get_locales_files_path (files : List FPath) : Option (List FPath) :=
  match files with
  | [] => none
  | first :: _ =>
    let ext := get_extension first
    if files.length ≥ 2 then
      some (files.foldl
        (fun all_files p =>
          if all_support_ext.any (fun e => get_extension p == e) then
            all_files ++ [p]
          else
            all_files)
        [])
    else
      some ((all_support_ext.foldl
        (fun all_files ex =>
          if ext == ex then
            all_files ++ [{ parent := first.parent, stem := "TODO", ext := ex }]
          else
            all_files)
        []) ++ [first])

/-- Decimal digit `d` (with `d < 10`) rendered as a character. -/
def digitChar (d : Nat) : Char := Char.ofNat (48 + d)

/-- The numeric value of a decimal digit character. -/
def charDigit (c : Char) : Nat := c.toNat - 48

/-- Whether a character is a decimal digit. -/
def isDigitCh (c : Char) : Bool := 48 ≤ c.toNat && c.toNat ≤ 57

/-- Decimal rendering of a natural number, most significant digit first. -/
def printNat (n : Nat) : List Char :=
  if n = 0 then ['0'] else ((Nat.digits 10 n).map digitChar).reverse

/-- Decimal rendering of an integer (a leading `-` for negatives). -/
def printInt : Int → List Char
  | .ofNat n => printNat n
  | .negSucc m => '-' :: printNat (m + 1)

mutual
/-- Modelled from the spec: a concrete printer witnessing the Format Adapter
interface of §4.2 (the per-format libraries are external collaborators,
specified only at their interface).  Scalars are tagged (`n`, `t`, `f`,
`i…;`), strings are length-prefixed (`s<len>;<chars>`), arrays are
`a<items>e` and objects are `m<fields>e`. -/
def printV : Value → List Char
  | .null => ['n']
  | .bool true => ['t']
  | .bool false => ['f']
  | .number i => 'i' :: (printInt i ++ [';'])
  | .string s => 's' :: (printNat s.data.length ++ ';' :: s.data)
  | .array xs => 'a' :: printItems xs
  | .object kvs => 'm' :: printFields kvs
termination_by v => sizeOf v

/-- Items of an array, in order, terminated by `e`. -/
def printItems : List Value → List Char
  | [] => ['e']
  | v :: vs => printV v ++ printItems vs
termination_by vs => sizeOf vs

/-- Fields of an object: `k<len>;<key>` then the printed value; terminated
by `e`. -/
def printFields : List (String × Value) → List Char
  | [] => ['e']
  | (k, v) :: rest => 'k' :: (printNat k.data.length ++ ';' :: (k.data ++ (printV v ++ printFields rest)))
termination_by l => sizeOf l
end

/-- Consume a decimal-digit run and decode it. -/
def readNat (s : List Char) : Nat × List Char :=
  ((s.takeWhile isDigitCh).foldl (fun a c => 10 * a + charDigit c) 0,
   s.dropWhile isDigitCh)

/-- Consume a decimal-digit run followed by a `;` terminator. -/
def parseNatSemi (s : List Char) : Option (Nat × List Char) :=
  match readNat s with
  | (n, ';' :: r) => some (n, r)
  | _ => none

/-- Consume an optionally `-`-signed decimal run followed by `;`. -/
def parseIntSemi (s : List Char) : Option (Int × List Char) :=
  if s.head? = some '-' then
    (parseNatSemi s.tail).map (fun p => (-(p.1 : Int), p.2))
  else
    (parseNatSemi s).map (fun p => ((p.1 : Int), p.2))

/-- A triple of parsers at one fuel level: for a value, for array items,
and for object fields. -/
structure Parsers where
  pVal : List Char → Option (Value × List Char)
  pItems : List Char → Option (List Value × List Char)
  pFields : List Char → Option (List (String × Value) × List Char)

/-- The fuel-exhausted parsers: always fail. -/
def parsersZero : Parsers :=
  ⟨fun _ => none, fun _ => none, fun _ => none⟩

/-- One fuel step of the parsers: each recursive descent uses the
previous level. -/
def parsersStep (p : Parsers) : Parsers where
  pVal s :=
    match s with
    | 'n' :: r => some (.null, r)
    | 't' :: r => some (.bool true, r)
    | 'f' :: r => some (.bool false, r)
    | 'i' :: r => (parseIntSemi r).map (fun q => (.number q.1, q.2))
    | 's' :: r =>
      match parseNatSemi r with
      | some (len, r2) => some (.string (String.mk (r2.take len)), r2.drop len)
      | none => none
    | 'a' :: r =>
      match p.pItems r with
      | some (vs, r2) => some (.array vs, r2)
      | none => none
    | 'm' :: r =>
      match p.pFields r with
      | some (kvs, r2) => some (.object kvs, r2)
      | none => none
    | _ => none
  pItems s :=
    match p.pVal s with
    | some (v, r) =>
      match p.pItems r with
      | some (vs, r2) => some (v :: vs, r2)
      | none => none
    | none =>
      match s with
      | 'e' :: r => some ([], r)
      | _ => none
  pFields s :=
    match s with
    | 'e' :: r => some ([], r)
    | 'k' :: r =>
      match parseNatSemi r with
      | some (len, r2) =>
        match p.pVal (r2.drop len) with
        | some (v, r3) =>
          match p.pFields r3 with
          | some (kvs, r4) => some ((String.mk (r2.take len), v) :: kvs, r4)
          | none => none
        | none => none
      | none => none
    | _ => none

/-- The parsers at a given fuel level. -/
def parsers : Nat → Parsers
  | 0 => parsersZero
  | fuel + 1 => parsersStep (parsers fuel)

mutual
/-- Fuel sufficient to parse a printed value: the nesting depth of the
tagged encoding. -/
def fsize : Value → Nat
  | .null => 1
  | .bool _ => 1
  | .number _ => 1
  | .string _ => 1
  | .array xs => 1 + fsizeItems xs
  | .object kvs => 1 + fsizeFields kvs
termination_by v => sizeOf v

/-- Fuel sufficient to parse a printed item list. -/
def fsizeItems : List Value → Nat
  | [] => 1
  | v :: vs => 1 + max (fsize v) (fsizeItems vs)
termination_by l => sizeOf l

/-- Fuel sufficient to parse a printed field list. -/
def fsizeFields : List (String × Value) → Nat
  | [] => 1
  | (_, v) :: rest => 1 + max (fsize v) (fsizeFields rest)
termination_by l => sizeOf l
end

/-- Failure kinds of parsing, per §7. -/
inductive ParseError where
  | malformed : ParseError
  | unknownFormat : ParseError
deriving Repr, DecidableEq

/-- Modelled from the spec: `parse_string_to_serde_json` (declared in the
support crate but not present under `src/`).  Spec §4.2: a text in a
supported format is parsed in full to a Value or fails with `ParseError`;
an unsupported format identifier has no adapter. -/
def parse_string_to_serde_json (content : String) (format : String) : Except ParseError Value :=
  if format == "json" || format == "yaml" || format == "yml" || format == "toml" then
    match (parsers (content.length + 1)).pVal content.data with
    | some (v, []) => Except.ok v
    | _ => Except.error ParseError.malformed
  else
    Except.error ParseError.unknownFormat

/-- Modelled from the spec: `serde_json::to_string_pretty`, the external
Json printer, at its §4.2 interface. -/
def serde_json_to_string (v : Value) : String := String.mk (printV v)

/-- Modelled from the spec: `serde_yaml::to_string`, the external Yaml
printer; §4.2 notes it may prepend a document-start marker (`---`) to its
output. -/
def serde_yaml_to_string (v : Value) : String :=
  String.mk ('-' :: '-' :: '-' :: '\n' :: printV v)

/-- Modelled from the spec: `toml::to_string_pretty`, the external Toml
printer, at its §4.2 interface. -/
def toml_to_string (v : Value) : String := String.mk (printV v)

/-- The characters with the Unicode `White_Space` property, which is what
Rust's `str::trim_start` strips. -/
def rustWhitespace : List Char :=
  ['\t', '\n', '\u000B', '\u000C', '\r', ' ', '\u0085', '\u00A0', '\u1680',
   '\u2000', '\u2001', '\u2002', '\u2003', '\u2004', '\u2005', '\u2006',
   '\u2007', '\u2008', '\u2009', '\u200A', '\u2028', '\u2029', '\u202F',
   '\u205F', '\u3000']

/-- Whether Rust's `str::trim_start` strips this character. -/
def isRustWs (c : Char) : Bool := rustWhitespace.contains c

/-- Rust `str::trim_start_matches("---")` on a character list: repeatedly
remove a leading `---`. -/
def trimMarkerL : List Char → List Char
  | c1 :: c2 :: c3 :: r =>
    if c1 = '-' ∧ c2 = '-' ∧ c3 = '-' then trimMarkerL r else c1 :: c2 :: c3 :: r
  | s => s

/-- Rust `str::trim_start` on a character list. -/
def trimWsL : List Char → List Char
  | [] => []
  | c :: r => if isRustWs c then trimWsL r else c :: r

/-- `convert_serde_to_string` from `merge_locales.rs`, with the three
external per-format printers passed at their interface.  The Yaml branch
strips a leading `---` and leading whitespace; the `unreachable!` branch is
modelled as `none`. -/
def convert_serde_to_string
    (jsonLib yamlLib tomlLib : Value → String)
    (value : Value) (format : String) : Option String :=
  match format with
  | "json" => some (jsonLib value)
  | "yaml" => some (String.mk (trimWsL (trimMarkerL (yamlLib value).data)))
  | "yml" => some (String.mk (trimWsL (trimMarkerL (yamlLib value).data)))
  | "toml" => some (tomlLib value)
  | _ => none

/-- `write_to_file` from `merge_locales.rs`: the destination extension
selects the output format, `writeln!` appends a single trailing newline,
and the text handed to the file-write collaborator is returned.  A panic
(the `unreachable!` branch of `convert_serde_to_string`) is modelled as
`none`. -/
def write_to_file
    (jsonLib yamlLib tomlLib : Value → String)
    (content : Value) (filename : FPath) : Option String :=
  (convert_serde_to_string jsonLib yamlLib tomlLib content (get_extension filename)).map
    (fun result => result ++ "\n")

/-- Failure kinds of the merge pipeline: the modelled
`files.first().unwrap()` panic, and a fatal read failure on an explicitly
supplied file. -/
inductive MergeError where
  | panic : MergeError
  | ioError : FPath → MergeError
deriving Repr, DecidableEq

/-- Modelled from the spec: `open_locales_files` composed with the file-read
collaborator `open_file_to_string` (not present under `src/`).  Spec §6: the
collaborator returns a file's contents as text or fails with an `IoError`;
an `IoError` on a document makes it contribute nothing, except on a file the
caller explicitly supplied (a member of `explicit`), where the failure
propagates as fatal. -/
def open_locales_files (fs : FPath → Option String) (explicit : List FPath) :
    List FPath → Except MergeError (List (String × FPath))
  | [] => Except.ok []
  | p :: rest =>
    match fs p with
    | some content =>
      match open_locales_files fs explicit rest with
      | Except.ok docs => Except.ok ((content, p) :: docs)
      | Except.error e => Except.error e
    | none =>
      if p ∈ explicit then Except.error (MergeError.ioError p)
      else open_locales_files fs explicit rest

/-- `get_merged_string` from `merge_locales.rs`: resolve the path list,
read every document, and left-fold the binary merge over the documents
that parse, starting from `serde_json::Value::default()`; a document that
fails to parse is skipped. -/
def get_merged_string (fs : FPath → Option String) (files : List FPath) :
    Except MergeError Value :=
  match get_locales_files_path files with
  | none => Except.error MergeError.panic
  | some paths =>
    match open_locales_files fs files paths with
    | Except.error e => Except.error e
    | Except.ok all_translated_files =>
      Except.ok (all_translated_files.foldl
        (fun all_merged_value cp =>
          match parse_string_to_serde_json cp.1 (get_extension cp.2) with
          | Except.ok tmp => merge_value all_merged_value tmp
          | Except.error _ => all_merged_value)
        serde_json_default)

/-! Helper lemmas about the merge. -/

/-- Unfolding of `merge_value` on two objects. -/
theorem merge_value_obj_obj (a b : List (String × Value)) :
    merge_value (.object a) (.object b) =
      .object (mergeFieldsA a b ++ b.filter (fun kw => (findValue kw.1 a).isNone)) := by
  rw [merge_value]

/-- When the left side is not an object, `merge_value` returns the right
side outright. -/
theorem merge_value_of_left_not_object (a b : Value) (h : ∀ l, a ≠ Value.object l) :
    merge_value a b = b := by
  cases a with
  | object l => exact absurd rfl (h l)
  | null => rw [merge_value]; exact fun _ _ h2 _ => Value.noConfusion h2
  | bool x => rw [merge_value]; exact fun _ _ h2 _ => Value.noConfusion h2
  | number n => rw [merge_value]; exact fun _ _ h2 _ => Value.noConfusion h2
  | string s => rw [merge_value]; exact fun _ _ h2 _ => Value.noConfusion h2
  | array xs => rw [merge_value]; exact fun _ _ h2 _ => Value.noConfusion h2

/-- When the right side is not an object, `merge_value` returns it
outright. -/
theorem merge_value_of_right_not_object (a : List (String × Value)) (b : Value)
    (h : ∀ l, b ≠ Value.object l) : merge_value (.object a) b = b := by
  cases b with
  | object l => exact absurd rfl (h l)
  | null => rw [merge_value]; exact fun _ _ _ h2 => Value.noConfusion h2
  | bool x => rw [merge_value]; exact fun _ _ _ h2 => Value.noConfusion h2
  | number n => rw [merge_value]; exact fun _ _ _ h2 => Value.noConfusion h2
  | string s => rw [merge_value]; exact fun _ _ _ h2 => Value.noConfusion h2
  | array xs => rw [merge_value]; exact fun _ _ _ h2 => Value.noConfusion h2

/-- Merging anything into `Null` yields that thing unchanged. -/
theorem merge_value_null_left (b : Value) : merge_value Value.null b = b :=
  merge_value_of_left_not_object _ _ (fun _ h => Value.noConfusion h)

/-- Unfolding of `mergeFieldsA` on the empty list. -/
theorem mergeFieldsA_nil (b : List (String × Value)) : mergeFieldsA [] b = [] := by
  rw [mergeFieldsA]

/-- Unfolding of `mergeFieldsA` on a cons cell. -/
theorem mergeFieldsA_cons (k : String) (v : Value) (rest b : List (String × Value)) :
    mergeFieldsA ((k, v) :: rest) b =
      (match findValue k b with
       | some w => (k, merge_value v w)
       | none => (k, v)) :: mergeFieldsA rest b := by
  rw [mergeFieldsA]

/-- Lookup distributes over append, preferring the left list. -/
theorem findValue_append (k : String) (l1 l2 : List (String × Value)) :
    findValue k (l1 ++ l2) =
      match findValue k l1 with
      | some v => some v
      | none => findValue k l2 := by
  induction l1 with
  | nil => simp [findValue]
  | cons kv rest ih =>
    obtain ⟨k2, v⟩ := kv
    simp only [List.cons_append, findValue]
    cases h : (k == k2) <;> simp [h, ih]

/-- Lookup in the `a`-side of the object merge: every key of `a` is present,
recursively merged when shared with `b`, unchanged otherwise. -/
theorem findValue_mergeFieldsA (k : String) (a b : List (String × Value)) :
    findValue k (mergeFieldsA a b) =
      (findValue k a).map (fun va =>
        match findValue k b with
        | some vb => merge_value va vb
        | none => va) := by
  induction a with
  | nil => simp [mergeFieldsA_nil, findValue]
  | cons kv rest ih =>
    obtain ⟨k2, v⟩ := kv
    rw [mergeFieldsA_cons]
    cases hfb : findValue k2 b with
    | some w =>
      simp only [hfb, findValue]
      cases h : (k == k2) with
      | true =>
        have hk : k = k2 := by simpa using h
        subst hk
        simp [findValue, hfb]
      | false => simp [h, ih, findValue]
    | none =>
      simp only [hfb, findValue]
      cases h : (k == k2) with
      | true =>
        have hk : k = k2 := by simpa using h
        subst hk
        simp [findValue, hfb]
      | false => simp [h, ih, findValue]

/-- Lookup in the `b`-only side of the object merge: a key survives the
filter exactly when it is absent from `a`. -/
theorem findValue_filter_isNone (k : String) (a b : List (String × Value)) :
    findValue k (b.filter (fun kw => (findValue kw.1 a).isNone)) =
      if (findValue k a).isNone then findValue k b else none := by
  induction b with
  | nil => simp [findValue]
  | cons kv rest ih =>
    obtain ⟨k2, v⟩ := kv
    rw [List.filter_cons]
    cases hp : ((findValue k2 a).isNone : Bool) with
    | true =>
      rw [if_pos (by simp [hp])]
      rw [findValue]
      cases h : (k == k2) with
      | true =>
        have hk : k = k2 := by simpa using h
        subst hk
        simp [hp, findValue, h]
      | false => simp [h, ih, findValue]
    | false =>
      rw [if_neg (by simp [hp])]
      cases h : (k == k2) with
      | true =>
        have hk : k = k2 := by simpa using h
        subst hk
        simp [hp, ih, findValue]
      | false => simp [h, ih, findValue]

/-! Helper lemmas about the resolver. -/

/-- A push-if fold is a filter. -/
theorem foldl_push_filter {α : Type} (p : α → Bool) (l : List α) :
    ∀ acc : List α,
      l.foldl (fun all x => if p x then all ++ [x] else all) acc = acc ++ l.filter p := by
  induction l with
  | nil => intro acc; simp
  | cons x rest ih =>
    intro acc
    cases h : p x <;> simp [List.filter_cons, h, ih]

/-- Resolving a single supported file yields the `TODO` companion followed
by the file. -/
theorem resolve_single (f : FPath) (h : f.ext ∈ all_support_ext) :
    get_locales_files_path [f] = some [⟨f.parent, "TODO", f.ext⟩, f] := by
  obtain ⟨par, st, ext⟩ := f
  simp only [all_support_ext, List.mem_cons, List.not_mem_nil, or_false] at h
  rcases h with h | h | h | h <;> (subst h; rfl)

/-- Resolving a single file with an unsupported extension yields just that
file. -/
theorem resolve_single_unknown (f : FPath) (h : f.ext ∉ all_support_ext) :
    get_locales_files_path [f] = some [f] := by
  obtain ⟨par, st, ext⟩ := f
  simp only [all_support_ext, List.mem_cons, List.not_mem_nil, or_false, not_or] at h
  obtain ⟨h1, h2, h3, h4⟩ := h
  simp [get_locales_files_path, get_extension, all_support_ext, h1, h2, h3, h4]

/-- Resolving two or more files filters them by supported extension, in
order. -/
theorem resolve_multi (files : List FPath) (h : 2 ≤ files.length) :
    get_locales_files_path files =
      some (files.filter (fun p => all_support_ext.any (fun e => get_extension p == e))) := by
  match files with
  | [] => simp at h
  | first :: rest =>
    rw [get_locales_files_path]
    simp only [ge_iff_le, h, if_true]
    rw [foldl_push_filter]
    simp

/-! Helper lemmas about decimal digits and numbers. -/

/-- Decoding inverts digit rendering. -/
theorem charDigit_digitChar : ∀ d, d < 10 → charDigit (digitChar d) = d := by decide

/-- Rendered digits are digit characters. -/
theorem isDigitCh_digitChar : ∀ d, d < 10 → isDigitCh (digitChar d) = true := by decide

/-- The `;` terminator is not a digit. -/
theorem isDigitCh_semi : isDigitCh ';' = false := by decide

/-- The `-` sign is not a digit. -/
theorem isDigitCh_dash : isDigitCh '-' = false := by decide

/-- `takeWhile` stops exactly at the first failing character. -/
theorem takeWhile_append_not (p : Char → Bool) (l : List Char) (x : Char) (r : List Char)
    (hl : ∀ c ∈ l, p c = true) (hx : p x = false) :
    (l ++ x :: r).takeWhile p = l := by
  induction l with
  | nil => simp [List.takeWhile_cons, hx]
  | cons c rest ih =>
    have hc : p c = true := hl c (List.mem_cons_self c rest)
    simp [List.takeWhile_cons, hc, ih (fun d hd => hl d (List.mem_cons_of_mem _ hd))]

/-- `dropWhile` drops exactly up to the first failing character. -/
theorem dropWhile_append_not (p : Char → Bool) (l : List Char) (x : Char) (r : List Char)
    (hl : ∀ c ∈ l, p c = true) (hx : p x = false) :
    (l ++ x :: r).dropWhile p = x :: r := by
  induction l with
  | nil => simp [List.dropWhile_cons, hx]
  | cons c rest ih =>
    have hc : p c = true := hl c (List.mem_cons_self c rest)
    simp [List.dropWhile_cons, hc, ih (fun d hd => hl d (List.mem_cons_of_mem _ hd))]

/-- Folding the decimal decode over rendered digits recovers
`Nat.ofDigits`. -/
theorem foldr_decode (L : List Nat) (hL : ∀ d ∈ L, d < 10) :
    (L.map digitChar).foldr (fun c a => 10 * a + charDigit c) 0 = Nat.ofDigits 10 L := by
  induction L with
  | nil => simp [Nat.ofDigits]
  | cons d L ih =>
    simp only [List.map_cons, List.foldr_cons, Nat.ofDigits_cons]
    rw [ih (fun x hx => hL x (List.mem_cons_of_mem _ hx)),
        charDigit_digitChar d (hL d (List.mem_cons_self _ _))]
    ring

/-- Every character of a rendered natural number is a digit. -/
theorem printNat_all_digits (n : Nat) : ∀ c ∈ printNat n, isDigitCh c = true := by
  unfold printNat
  split
  · intro c hc
    simp only [List.mem_singleton] at hc
    subst hc
    decide
  · intro c hc
    rw [List.mem_reverse] at hc
    obtain ⟨d, hd, rfl⟩ := List.mem_map.mp hc
    exact isDigitCh_digitChar d (Nat.digits_lt_base (by norm_num) hd)

/-- Decoding the decimal rendering of `n` gives back `n`. -/
theorem decode_printNat (n : Nat) :
    (printNat n).foldl (fun a c => 10 * a + charDigit c) 0 = n := by
  unfold printNat
  split
  · rename_i h
    subst h
    decide
  · rw [List.foldl_reverse, foldr_decode _ (fun d hd => Nat.digits_lt_base (by norm_num) hd),
        Nat.ofDigits_digits]

/-- Parsing the decimal rendering of `n` followed by `;` succeeds and
consumes exactly through the terminator. -/
theorem parseNatSemi_printNat (n : Nat) (r : List Char) :
    parseNatSemi (printNat n ++ ';' :: r) = some (n, r) := by
  unfold parseNatSemi readNat
  rw [takeWhile_append_not _ _ _ _ (printNat_all_digits n) isDigitCh_semi,
      dropWhile_append_not _ _ _ _ (printNat_all_digits n) isDigitCh_semi,
      decode_printNat]
  rfl

/-- A rendered natural number is a nonempty digit string. -/
theorem printNat_head_digit (n : Nat) :
    ∃ c t, printNat n = c :: t ∧ isDigitCh c = true := by
  cases hp : printNat n with
  | nil =>
    exfalso
    unfold printNat at hp
    revert hp
    split
    · intro hp; cases hp
    · rename_i h
      intro hp
      have hnn : Nat.digits 10 n ≠ [] := Nat.digits_ne_nil_iff_ne_zero.mpr h
      simp only [List.reverse_eq_nil_iff, List.map_eq_nil_iff] at hp
      exact hnn hp
  | cons c t =>
    refine ⟨c, t, rfl, ?_⟩
    exact printNat_all_digits n c (by rw [hp]; exact List.mem_cons_self _ _)

/-- Parsing the rendering of an integer followed by `;` succeeds. -/
theorem parseIntSemi_printInt (i : Int) (r : List Char) :
    parseIntSemi (printInt i ++ ';' :: r) = some (i, r) := by
  cases i with
  | ofNat n =>
    simp only [printInt, parseIntSemi]
    obtain ⟨c, t, hct, hd⟩ := printNat_head_digit n
    rw [if_neg ?_]
    · rw [parseNatSemi_printNat]
      simp
    · rw [hct]
      simp only [List.cons_append, List.head?_cons, Option.some.injEq]
      intro hc
      subst hc
      exact absurd hd (by decide)
  | negSucc m =>
    simp only [printInt, parseIntSemi, List.cons_append, List.head?_cons, List.tail_cons]
    rw [if_pos trivial, parseNatSemi_printNat]
    simp [Int.negSucc_eq]

/-! Helper lemmas about the printers. -/

/-- Rebuilding a string from its characters is the identity. -/
theorem string_mk_data (s : String) : String.mk s.data = s := by cases s; rfl

/-- A printed value is nonempty. -/
theorem printV_length_pos (v : Value) : 1 ≤ (printV v).length := by
  cases v with
  | null => simp [printV]
  | bool b => cases b <;> simp [printV]
  | number i => simp [printV]
  | string s => simp [printV]
  | array xs => simp [printV]
  | object kvs => simp [printV]

/-- A printed item list is nonempty. -/
theorem printItems_length_pos (xs : List Value) : 1 ≤ (printItems xs).length := by
  cases xs with
  | nil => simp [printItems]
  | cons v vs =>
    rw [printItems]
    simp only [List.length_append]
    have := printV_length_pos v
    omega

/-- A printed field list is nonempty. -/
theorem printFields_length_pos (l : List (String × Value)) : 1 ≤ (printFields l).length := by
  cases l with
  | nil => simp [printFields]
  | cons kv rest =>
    obtain ⟨k, v⟩ := kv
    rw [printFields]
    simp

mutual
/-- The fuel bound is below the printed length. -/
theorem fsize_le_print (v : Value) : fsize v ≤ (printV v).length := by
  cases v with
  | null => simp [fsize, printV]
  | bool b => cases b <;> simp [fsize, printV]
  | number i => simp [fsize, printV]
  | string s => simp [fsize, printV]
  | array xs =>
    rw [fsize, printV]
    have := fsizeItems_le_print xs
    simp only [List.length_cons]
    omega
  | object kvs =>
    rw [fsize, printV]
    have := fsizeFields_le_print kvs
    simp only [List.length_cons]
    omega
termination_by sizeOf v

/-- The fuel bound of an item list is below its printed length. -/
theorem fsizeItems_le_print (xs : List Value) : fsizeItems xs ≤ (printItems xs).length := by
  cases xs with
  | nil => simp [fsizeItems, printItems]
  | cons v vs =>
    rw [fsizeItems, printItems]
    have h1 := fsize_le_print v
    have h2 := fsizeItems_le_print vs
    have h3 := printV_length_pos v
    have h4 := printItems_length_pos vs
    simp only [List.length_append]
    omega
termination_by sizeOf xs

/-- The fuel bound of a field list is below its printed length. -/
theorem fsizeFields_le_print (l : List (String × Value)) : fsizeFields l ≤ (printFields l).length := by
  cases l with
  | nil => simp [fsizeFields, printFields]
  | cons kv rest =>
    obtain ⟨k, v⟩ := kv
    rw [fsizeFields, printFields]
    have h1 := fsize_le_print v
    have h2 := fsizeFields_le_print rest
    have h3 := printV_length_pos v
    have h4 := printFields_length_pos rest
    simp only [List.length_cons, List.length_append]
    omega
termination_by sizeOf l
end

/-- No value parse starts at an `e` terminator. -/
theorem pVal_e_none (fuel : Nat) (r : List Char) : (parsers fuel).pVal ('e' :: r) = none := by
  cases fuel with
  | zero => rfl
  | succ f => simp [parsers, parsersStep]

/-- Every fuel measure is positive. -/
theorem fsize_pos (v : Value) : 1 ≤ fsize v := by
  cases v <;> rw [fsize] <;> omega

/-- The item-list fuel measure is positive. -/
theorem fsizeItems_pos (xs : List Value) : 1 ≤ fsizeItems xs := by
  cases xs <;> (rw [fsizeItems]; try omega)

/-- The field-list fuel measure is positive. -/
theorem fsizeFields_pos (l : List (String × Value)) : 1 ≤ fsizeFields l := by
  rcases l with _ | ⟨⟨k, v⟩, rest⟩ <;> (rw [fsizeFields]; try omega)

/-- Parsing a printed value, item list or field list with enough fuel
consumes exactly the printed text and recovers the input. -/
theorem parse_print_all : ∀ fuel : Nat,
    (∀ (v : Value) (rest : List Char), fsize v ≤ fuel →
      (parsers fuel).pVal (printV v ++ rest) = some (v, rest)) ∧
    (∀ (xs : List Value) (rest : List Char), fsizeItems xs ≤ fuel →
      (parsers fuel).pItems (printItems xs ++ rest) = some (xs, rest)) ∧
    (∀ (l : List (String × Value)) (rest : List Char), fsizeFields l ≤ fuel →
      (parsers fuel).pFields (printFields l ++ rest) = some (l, rest)) := by
  intro fuel
  induction fuel with
  | zero =>
    refine ⟨fun v rest h => absurd h ?_, fun xs rest h => absurd h ?_,
      fun l rest h => absurd h ?_⟩
    · have := fsize_pos v; omega
    · have := fsizeItems_pos xs; omega
    · have := fsizeFields_pos l; omega
  | succ f ih =>
    obtain ⟨ihV, ihI, ihF⟩ := ih
    refine ⟨fun v rest h => ?_, fun xs rest h => ?_, fun l rest h => ?_⟩
    · cases v with
      | null =>
        rw [printV]
        simp [parsers, parsersStep]
      | bool b =>
        cases b <;> (rw [printV]; simp [parsers, parsersStep])
      | number i =>
        rw [printV]
        simp only [List.cons_append, List.append_assoc, List.singleton_append]
        simp [parsers, parsersStep, parseIntSemi_printInt]
      | string s =>
        rw [printV]
        simp only [List.cons_append, List.append_assoc, List.cons_append]
        simp [parsers, parsersStep, parseNatSemi_printNat, List.take_left, List.drop_left,
          string_mk_data]
      | array xs =>
        rw [fsize] at h
        rw [printV]
        simp only [List.cons_append]
        simp [parsers, parsersStep, ihI xs rest (by omega)]
      | object kvs =>
        rw [fsize] at h
        rw [printV]
        simp only [List.cons_append]
        simp [parsers, parsersStep, ihF kvs rest (by omega)]
    · cases xs with
      | nil =>
        rw [printItems]
        simp [parsers, parsersStep, pVal_e_none]
      | cons v vs =>
        rw [fsizeItems] at h
        rw [printItems]
        simp only [List.append_assoc]
        have h1 := ihV v (printItems vs ++ rest) (by omega)
        have h2 := ihI vs rest (by omega)
        simp [parsers, parsersStep, h1, h2]
    · rcases l with _ | ⟨⟨k, v⟩, restl⟩
      · rw [printFields]
        simp [parsers, parsersStep]
      · rw [fsizeFields] at h
        rw [printFields]
        simp only [List.cons_append, List.append_assoc]
        have h1 := ihV v (printFields restl ++ rest) (by omega)
        have h2 := ihF restl rest (by omega)
        simp [parsers, parsersStep, parseNatSemi_printNat, List.take_left, List.drop_left,
          h1, h2, string_mk_data]

/-! Helper lemmas about marker and whitespace stripping. -/

/-- Stripping consumes a leading `---`. -/
theorem trimMarkerL_marker (r : List Char) :
    trimMarkerL ('-' :: '-' :: '-' :: r) = trimMarkerL r := by
  rw [trimMarkerL]
  rw [if_pos ⟨rfl, rfl, rfl⟩]

/-- A list that does not start with `-` is untouched by marker
stripping. -/
theorem trimMarkerL_of_head_ne (s : List Char) (h : s.head? ≠ some '-') :
    trimMarkerL s = s := by
  match s with
  | [] => rfl
  | [c1] => rfl
  | [c1, c2] => rfl
  | c1 :: c2 :: c3 :: r =>
    rw [trimMarkerL, if_neg]
    intro hc
    exact h (by rw [hc.1]; rfl)

/-- Whitespace stripping removes an all-whitespace prefix. -/
theorem trimWsL_append_ws (w b : List Char) (hw : ∀ c ∈ w, isRustWs c = true) :
    trimWsL (w ++ b) = trimWsL b := by
  induction w with
  | nil => rfl
  | cons c wrest ih =>
    have hc : isRustWs c = true := hw c (List.mem_cons_self _ _)
    rw [List.cons_append, trimWsL, if_pos hc]
    exact ih (fun d hd => hw d (List.mem_cons_of_mem _ hd))

/-- A list whose head is not whitespace is untouched by whitespace
stripping. -/
theorem trimWsL_of_head_not_ws (b : List Char)
    (h : ∀ c r, b = c :: r → isRustWs c = false) : trimWsL b = b := by
  cases b with
  | nil => rfl
  | cons c r => rw [trimWsL, if_neg (by rw [h c r rfl]; exact Bool.false_ne_true)]

/-- The head of stripped output is never whitespace. -/
theorem trimWsL_head_not_ws (s : List Char) (c : Char) (r : List Char)
    (h : trimWsL s = c :: r) : isRustWs c = false := by
  induction s with
  | nil => cases h
  | cons d t ih =>
    rw [trimWsL] at h
    by_cases hd : isRustWs d
    · rw [if_pos hd] at h
      exact ih h
    · rw [if_neg hd] at h
      cases h
      simpa using hd

/-- Every printed value starts with a tag character, which is neither
whitespace nor a dash. -/
theorem printV_head (v : Value) :
    ∃ c t, printV v = c :: t ∧ isRustWs c = false ∧ c ≠ '-' := by
  cases v with
  | null => exact ⟨'n', _, by rw [printV], by decide, by decide⟩
  | bool b =>
    cases b
    · exact ⟨'f', _, by rw [printV], by decide, by decide⟩
    · exact ⟨'t', _, by rw [printV], by decide, by decide⟩
  | number i => exact ⟨'i', _, by rw [printV], by decide, by decide⟩
  | string s => exact ⟨'s', _, by rw [printV], by decide, by decide⟩
  | array xs => exact ⟨'a', _, by rw [printV], by decide, by decide⟩
  | object kvs => exact ⟨'m', _, by rw [printV], by decide, by decide⟩

/-- The Yaml adapter's stripping recovers the bare printed value from the
modelled library output. -/
theorem trimStrip_yaml (v : Value) :
    trimWsL (trimMarkerL ('-' :: '-' :: '-' :: '\n' :: printV v)) = printV v := by
  rw [trimMarkerL_marker]
  rw [trimMarkerL_of_head_ne _ (by simp)]
  rw [show ('\n' :: printV v) = ['\n'] ++ printV v from rfl]
  rw [trimWsL_append_ws _ _ (by intro c hc; simp at hc; subst hc; decide)]
  obtain ⟨c, t, hct, hws, _⟩ := printV_head v
  exact trimWsL_of_head_not_ws _ (by rw [hct]; intro c2 r2 h2; cases h2; exact hws)

/-! Bridge lemmas towards the claim theorems. -/

/-- Boolean `any`-equality over a string list is list membership. -/
theorem any_beq_eq_mem (x : String) (l : List String) :
    (l.any fun e => x == e) = decide (x ∈ l) := by
  induction l with
  | nil => rfl
  | cons y t ih =>
    simp only [List.any_cons, ih, List.mem_cons]
    cases hb : x == y
    · have hne : ¬ (x = y) := fun hxy => by simp [hxy] at hb
      simp [hne]
    · have heq : x = y := beq_iff_eq.mp hb
      simp [heq]

/-- Parsing the string made of a printed value, in any supported format,
recovers the value. -/
theorem parse_mk_printV (v : Value) (fmt : String)
    (hf : fmt = "json" ∨ fmt = "yaml" ∨ fmt = "yml" ∨ fmt = "toml") :
    parse_string_to_serde_json (String.mk (printV v)) fmt = Except.ok v := by
  have hgate : (fmt == "json" || fmt == "yaml" || fmt == "yml" || fmt == "toml") = true := by
    rcases hf with rfl | rfl | rfl | rfl <;> rfl
  unfold parse_string_to_serde_json
  rw [if_pos hgate]
  have hfuel : fsize v ≤ (printV v).length + 1 := le_trans (fsize_le_print v) (by omega)
  have h := (parse_print_all ((printV v).length + 1)).1 v [] hfuel
  rw [List.append_nil] at h
  have hdata : (String.mk (printV v)).data = printV v := rfl
  have hlen : (String.mk (printV v)).length = (printV v).length := rfl
  rw [hdata, hlen, h]

/-- Folding the skip-on-parse-failure step equals folding the plain merge
over the documents that parse. -/
theorem foldl_skip (docs : List (String × FPath)) : ∀ acc : Value,
    docs.foldl
      (fun acc cp =>
        match parse_string_to_serde_json cp.1 (get_extension cp.2) with
        | Except.ok tmp => merge_value acc tmp
        | Except.error _ => acc) acc =
    (docs.filterMap
      (fun cp => (parse_string_to_serde_json cp.1 (get_extension cp.2)).toOption)).foldl
      merge_value acc := by
  induction docs with
  | nil => intro acc; rfl
  | cons cp rest ih =>
    intro acc
    rw [List.foldl_cons, List.filterMap_cons]
    cases hp : parse_string_to_serde_json cp.1 (get_extension cp.2) with
    | ok tmp => simp only [hp, Except.toOption, List.foldl_cons, ih]
    | error e => simp only [hp, Except.toOption, ih]

/-- A list that is not `---`-prefixed is untouched by marker stripping. -/
theorem trimMarkerL_of_not_marker (s : List Char) (h : ∀ r, s ≠ '-' :: '-' :: '-' :: r) :
    trimMarkerL s = s := by
  match s with
  | [] => rfl
  | [c1] => rfl
  | [c1, c2] => rfl
  | c1 :: c2 :: c3 :: r =>
    rw [trimMarkerL, if_neg]
    rintro ⟨h1, h2, h3⟩
    exact h r (by rw [h1, h2, h3])

/-! The claim theorems. -/

/-- C2: for every pair of Values `a` and `b`, if both are Mappings,
`merge_value a b` is a Mapping whose lookup keeps every key only in `a`
unchanged, every key only in `b` unchanged, and recursively merges every
shared key; in every other case `merge_value a b` is `b` outright. -/
theorem C2_merge_binary_spec (a b : Value) :
    (∀ ka kb, a = Value.object ka → b = Value.object kb →
      ∃ m, merge_value a b = Value.object m ∧
        ∀ k, findValue k m =
          (match findValue k ka, findValue k kb with
           | some va, some vb => some (merge_value va vb)
           | some va, none => some va
           | none, ob => ob)) ∧
    (((∀ l, a ≠ Value.object l) ∨ (∀ l, b ≠ Value.object l)) → merge_value a b = b) := by
  constructor
  · intro ka kb ha hb
    subst ha
    subst hb
    rw [merge_value_obj_obj]
    refine ⟨_, rfl, fun k => ?_⟩
    rw [findValue_append, findValue_mergeFieldsA, findValue_filter_isNone]
    cases hka : findValue k ka with
    | some va =>
      cases hkb : findValue k kb with
      | some vb => simp
      | none => simp
    | none =>
      cases hkb : findValue k kb with
      | some vb => simp
      | none => simp
  · intro h
    rcases h with h | h
    · exact merge_value_of_left_not_object a b h
    · cases a with
      | object l => exact merge_value_of_right_not_object l b h
      | null => exact merge_value_of_left_not_object _ b (fun _ h2 => Value.noConfusion h2)
      | bool x => exact merge_value_of_left_not_object _ b (fun _ h2 => Value.noConfusion h2)
      | number n => exact merge_value_of_left_not_object _ b (fun _ h2 => Value.noConfusion h2)
      | string s => exact merge_value_of_left_not_object _ b (fun _ h2 => Value.noConfusion h2)
      | array xs => exact merge_value_of_left_not_object _ b (fun _ h2 => Value.noConfusion h2)

/-- Witness for C2 at the right-bias scalar-conflict example of the spec. -/
theorem C2_witness :
    ∃ m, merge_value (Value.object [("k", Value.string "x")])
        (Value.object [("k", Value.string "y")]) = Value.object m ∧
      ∀ k, findValue k m =
        (match findValue k [("k", Value.string "x")], findValue k [("k", Value.string "y")] with
         | some va, some vb => some (merge_value va vb)
         | some va, none => some va
         | none, ob => ob) :=
  (C2_merge_binary_spec _ _).1 _ _ rfl rfl

/-- C4: resolving exactly one file whose extension is supported yields the
synthesized `TODO.<ext>` companion (same parent, same extension) before the
supplied file; an unsupported extension yields just the supplied file. -/
theorem C4_resolver_single (f : FPath) :
    (f.ext ∈ all_support_ext →
      get_locales_files_path [f] = some [⟨f.parent, "TODO", f.ext⟩, f]) ∧
    (f.ext ∉ all_support_ext → get_locales_files_path [f] = some [f]) :=
  ⟨resolve_single f, resolve_single_unknown f⟩

/-- Witness for C4 at a supported (`yml`) and an unsupported (`txt`)
extension. -/
theorem C4_witness :
    get_locales_files_path [⟨"locales", "a", "yml"⟩] =
      some [⟨"locales", "TODO", "yml"⟩, ⟨"locales", "a", "yml"⟩] ∧
    get_locales_files_path [⟨"locales", "b", "txt"⟩] = some [⟨"locales", "b", "txt"⟩] :=
  ⟨(C4_resolver_single _).1 (by decide), (C4_resolver_single _).2 (by decide)⟩

/-- C5: resolving two or more files keeps exactly the subsequence whose
extension is one of `yml`, `yaml`, `json`, `toml` (case-sensitively), in
the order supplied; the rest are silently dropped. -/
theorem C5_resolver_multi (files : List FPath) (h : 2 ≤ files.length) :
    get_locales_files_path files =
      some (files.filter (fun p => decide (get_extension p ∈ all_support_ext))) := by
  rw [resolve_multi files h]
  have hfun : (fun p : FPath => all_support_ext.any fun e => get_extension p == e) =
      (fun p : FPath => decide (get_extension p ∈ all_support_ext)) := by
    funext p
    exact any_beq_eq_mem _ _
  rw [hfun]

/-- Witness for C5 on a four-file list with one unsupported extension. -/
theorem C5_witness :
    get_locales_files_path
      [⟨"l", "a", "yml"⟩, ⟨"l", "b", "txt"⟩, ⟨"l", "c", "json"⟩, ⟨"l", "d", "TOML"⟩] =
      some [⟨"l", "a", "yml"⟩, ⟨"l", "c", "json"⟩] := by
  rw [C5_resolver_multi _ (by decide)]
  rfl

/-- C9: calling `get_merged_string` (or `get_locales_files_path`) with an
empty slice of file references hits the unconditional
`files.first().unwrap()` panic, modelled as `none` and
`MergeError.panic`. -/
theorem C9_empty_panics :
    get_locales_files_path ([] : List FPath) = none ∧
    ∀ fs : FPath → Option String,
      get_merged_string fs [] = Except.error MergeError.panic :=
  ⟨rfl, fun _ => rfl⟩

/-- C10: `write_to_file` panics via the `unreachable!` branch of
`convert_serde_to_string` exactly when the destination extension is not one
of `json`, `yaml`, `yml`, `toml`; for those four it produces output. -/
theorem C10_write_unreachable (jsonLib yamlLib tomlLib : Value → String)
    (content : Value) (filename : FPath) :
    (get_extension filename ∉ (["json", "yaml", "yml", "toml"] : List String) →
      write_to_file jsonLib yamlLib tomlLib content filename = none) ∧
    (get_extension filename ∈ (["json", "yaml", "yml", "toml"] : List String) →
      ∃ out, write_to_file jsonLib yamlLib tomlLib content filename = some out) := by
  constructor
  · intro h
    simp only [List.mem_cons, List.not_mem_nil, or_false, not_or] at h
    obtain ⟨h1, h2, h3, h4⟩ := h
    unfold write_to_file convert_serde_to_string
    split
    all_goals first
      | rfl
      | (rename_i heq
         first
           | exact absurd heq h1
           | exact absurd heq h2
           | exact absurd heq h3
           | exact absurd heq h4)
  · intro h
    simp only [List.mem_cons, List.not_mem_nil, or_false] at h
    rcases h with h | h | h | h <;>
      (unfold write_to_file convert_serde_to_string; rw [h]; exact ⟨_, rfl⟩)

/-- Witness for C10 at an unsupported (`docx`) and a supported (`json`)
destination extension. -/
theorem C10_witness :
    write_to_file (fun _ => "") (fun _ => "") (fun _ => "")
      Value.null ⟨"out", "x", "docx"⟩ = none ∧
    ∃ out, write_to_file (fun _ => "") (fun _ => "") (fun _ => "")
      Value.null ⟨"out", "x", "json"⟩ = some out :=
  ⟨(C10_write_unreachable _ _ _ _ _).1 (by decide),
   (C10_write_unreachable _ _ _ _ _).2 (by decide)⟩

/-- C1 (counterexample to the claim as stated): with two unsupported-extension
references, no document contributes, and the merged result is `Null` — the
value of `serde_json::Value::default()` — not an empty Mapping. -/
theorem C1_counterexample :
    get_merged_string (fun _ => none) [⟨".", "a", "txt"⟩, ⟨".", "b", "txt"⟩] =
      Except.ok Value.null ∧ Value.null ≠ Value.object [] :=
  ⟨rfl, fun h => Value.noConfusion h⟩

/-- C1 (amended): `get_merged_string` computes a strict left fold of the
binary merge over the resolved documents, starting from
`serde_json::Value::default()`, which is `Null` (not an empty Mapping);
zero contributing documents yield `Null`, and exactly one contributing
document yields that document's Value unchanged. -/
theorem C1_merge_fold (fs : FPath → Option String) (files paths : List FPath)
    (docs : List (String × FPath))
    (hp : get_locales_files_path files = some paths)
    (ho : open_locales_files fs files paths = Except.ok docs) :
    get_merged_string fs files = Except.ok (docs.foldl
        (fun acc cp =>
          match parse_string_to_serde_json cp.1 (get_extension cp.2) with
          | Except.ok tmp => merge_value acc tmp
          | Except.error _ => acc) serde_json_default) ∧
    serde_json_default = Value.null ∧
    (docs = [] → get_merged_string fs files = Except.ok Value.null) ∧
    (∀ content path v, docs = [(content, path)] →
        parse_string_to_serde_json content (get_extension path) = Except.ok v →
        get_merged_string fs files = Except.ok v) := by
  have hmain : get_merged_string fs files = Except.ok (docs.foldl
      (fun acc cp =>
        match parse_string_to_serde_json cp.1 (get_extension cp.2) with
        | Except.ok tmp => merge_value acc tmp
        | Except.error _ => acc) serde_json_default) := by
    unfold get_merged_string
    simp only [hp, ho]
  refine ⟨hmain, rfl, ?_, ?_⟩
  · intro hd
    subst hd
    exact hmain
  · intro content path v hd hparse
    subst hd
    rw [hmain]
    simp only [List.foldl_cons, List.foldl_nil, hparse]
    rw [show serde_json_default = Value.null from rfl, merge_value_null_left]

/-- Witness for C1 (amended), at a single readable document that parses to
`Null`; the merged result is that document's value unchanged. -/
theorem C1_witness :
    get_merged_string
      (fun p => if p = (⟨"locales", "translated", "yaml"⟩ : FPath) then some "n" else none)
      [⟨"locales", "translated", "yaml"⟩] = Except.ok Value.null :=
  (C1_merge_fold
      (fun p => if p = (⟨"locales", "translated", "yaml"⟩ : FPath) then some "n" else none)
      [⟨"locales", "translated", "yaml"⟩]
      [⟨"locales", "TODO", "yaml"⟩, ⟨"locales", "translated", "yaml"⟩]
      [("n", ⟨"locales", "translated", "yaml"⟩)] rfl rfl).2.2.2
    "n" ⟨"locales", "translated", "yaml"⟩ Value.null rfl rfl

/-- C3: a document whose text fails to parse for its format is skipped:
the merged result equals the fold of the binary merge over only the
successfully parsed documents, in order, and a parse failure never aborts
the merge. -/
theorem C3_parse_failure_skipped (fs : FPath → Option String) (files paths : List FPath)
    (docs : List (String × FPath))
    (hp : get_locales_files_path files = some paths)
    (ho : open_locales_files fs files paths = Except.ok docs) :
    get_merged_string fs files = Except.ok
      ((docs.filterMap
        (fun cp => (parse_string_to_serde_json cp.1 (get_extension cp.2)).toOption)).foldl
        merge_value serde_json_default) := by
  unfold get_merged_string
  simp only [hp, ho]
  rw [foldl_skip]

/-- Witness for C3: the companion's content is malformed and is skipped;
the merge still succeeds with the sole parsed document. -/
theorem C3_witness :
    get_merged_string
      (fun p => if p = (⟨"locales", "translated", "yaml"⟩ : FPath) then some "n" else some "x")
      [⟨"locales", "translated", "yaml"⟩] =
    Except.ok
      (([("x", (⟨"locales", "TODO", "yaml"⟩ : FPath)),
         ("n", (⟨"locales", "translated", "yaml"⟩ : FPath))].filterMap
        (fun cp => (parse_string_to_serde_json cp.1 (get_extension cp.2)).toOption)).foldl
        merge_value serde_json_default) :=
  C3_parse_failure_skipped _ _
    [⟨"locales", "TODO", "yaml"⟩, ⟨"locales", "translated", "yaml"⟩] _ rfl rfl

/-- C6: an `IoError` on the synthesized companion makes it contribute
nothing — a single supplied file with no readable `TODO.<ext>` sibling
merges to just its own content — while an `IoError` on the explicitly
supplied file propagates as a fatal error. -/
theorem C6_io_error_policy (fs1 fs2 : FPath → Option String) (f : FPath)
    (content : String) (v : Value)
    (hext : f.ext ∈ all_support_ext)
    (hne : (⟨f.parent, "TODO", f.ext⟩ : FPath) ≠ f)
    (hmiss : fs1 ⟨f.parent, "TODO", f.ext⟩ = none)
    (hread : fs1 f = some content)
    (hparse : parse_string_to_serde_json content (get_extension f) = Except.ok v)
    (hfail : fs2 f = none) :
    get_merged_string fs1 [f] = Except.ok v ∧
    get_merged_string fs2 [f] = Except.error (MergeError.ioError f) := by
  constructor
  · have hopen : open_locales_files fs1 [f] [⟨f.parent, "TODO", f.ext⟩, f] =
        Except.ok [(content, f)] := by
      simp only [open_locales_files, hmiss, hread, List.mem_cons, List.not_mem_nil, or_false]
      rw [if_neg hne]
    unfold get_merged_string
    simp only [resolve_single f hext, hopen]
    simp only [List.foldl_cons, List.foldl_nil, hparse]
    rw [show serde_json_default = Value.null from rfl, merge_value_null_left]
  · have hopen2 : open_locales_files fs2 [f] [⟨f.parent, "TODO", f.ext⟩, f] =
        Except.error (MergeError.ioError f) := by
      cases hc : fs2 ⟨f.parent, "TODO", f.ext⟩ with
      | some c =>
        simp only [open_locales_files, hc, hfail, List.mem_cons, List.not_mem_nil, or_false]
        rw [if_pos trivial]
      | none =>
        simp only [open_locales_files, hc, hfail, List.mem_cons, List.not_mem_nil, or_false]
        rw [if_neg hne, if_pos trivial]
    unfold get_merged_string
    simp only [resolve_single f hext, hopen2]

/-- Witness for C6: companion unreadable on one file system, explicit file
unreadable on another. -/
theorem C6_witness :
    get_merged_string
      (fun p => if p = (⟨"locales", "translated", "yaml"⟩ : FPath) then some "n" else none)
      [⟨"locales", "translated", "yaml"⟩] = Except.ok Value.null ∧
    get_merged_string (fun _ => none) [⟨"locales", "translated", "yaml"⟩] =
      Except.error (MergeError.ioError ⟨"locales", "translated", "yaml"⟩) :=
  C6_io_error_policy _ _ _ "n" Value.null (by decide) (by decide) rfl rfl rfl rfl

/-- C7: the Yaml branch of `convert_serde_to_string` strips the leading
document-start marker the underlying library may prepend, together with
leading whitespace, recovering the bare content: the returned text never
begins with `---` or whitespace. -/
theorem C7_yaml_marker_free
    (jsonLib yamlLib tomlLib : Value → String) (v : Value) (fmt : String) (out : String)
    (marker w bare : List Char)
    (hfmt : fmt = "yaml" ∨ fmt = "yml")
    (hout : convert_serde_to_string jsonLib yamlLib tomlLib v fmt = some out)
    (hsplit : (yamlLib v).data = marker ++ (w ++ bare))
    (hm : marker = [] ∨ marker = ['-', '-', '-'])
    (hw : ∀ c ∈ w, isRustWs c = true)
    (hb1 : ∀ r, bare ≠ '-' :: '-' :: '-' :: r)
    (hb2 : ∀ c r, bare = c :: r → isRustWs c = false) :
    out.data = bare ∧
    (∀ r, out.data ≠ '-' :: '-' :: '-' :: r) ∧
    (∀ c r, out.data = c :: r → isRustWs c = false) := by
  have hwb : trimMarkerL (w ++ bare) = w ++ bare := by
    apply trimMarkerL_of_not_marker
    intro r hr
    cases w with
    | nil =>
      rw [List.nil_append] at hr
      exact hb1 r hr
    | cons c wrest =>
      rw [List.cons_append] at hr
      have hc : isRustWs c = true := hw c (List.mem_cons_self _ _)
      have : c = '-' := (List.cons.injEq _ _ _ _).mp hr |>.1
      subst this
      exact absurd hc (by decide)
  have hstrip : trimWsL (trimMarkerL (yamlLib v).data) = bare := by
    rw [hsplit]
    rcases hm with rfl | rfl
    · rw [List.nil_append, hwb, trimWsL_append_ws _ _ hw, trimWsL_of_head_not_ws _ hb2]
    · rw [show (['-', '-', '-'] ++ (w ++ bare)) = '-' :: '-' :: '-' :: (w ++ bare) from rfl,
        trimMarkerL_marker, hwb, trimWsL_append_ws _ _ hw, trimWsL_of_head_not_ws _ hb2]
  have hout2 : out.data = bare := by
    rcases hfmt with rfl | rfl
    · simp only [convert_serde_to_string, Option.some.injEq] at hout
      rw [← hout]
      exact hstrip
    · simp only [convert_serde_to_string, Option.some.injEq] at hout
      rw [← hout]
      exact hstrip
  refine ⟨hout2, ?_, ?_⟩
  · rw [hout2]
    exact hb1
  · rw [hout2]
    exact hb2

/-- Witness for C7 at a library output `---\nk`: the adapter returns bare
`k`. -/
theorem C7_witness :
    (("k" : String)).data = ['k'] ∧
    (∀ r, ("k" : String).data ≠ '-' :: '-' :: '-' :: r) ∧
    (∀ c r, ("k" : String).data = c :: r → isRustWs c = false) :=
  C7_yaml_marker_free (fun _ => "") (fun _ => "---\nk") (fun _ => "") Value.null
    "yaml" "k" ['-', '-', '-'] ['\n'] ['k'] (Or.inl rfl) rfl rfl (Or.inr rfl)
    (by intro c hc; simp only [List.mem_singleton] at hc; subst hc; decide)
    (by intro r h; simp at h)
    (by intro c r h; cases h; decide)

/-- C8: for every Value and every supported format, printing through
`convert_serde_to_string` and parsing the result yields the original Value
(structural round trip). -/
theorem C8_round_trip (v : Value) (fmt : String)
    (h : fmt = "json" ∨ fmt = "yaml" ∨ fmt = "yml" ∨ fmt = "toml") :
    ∃ out,
      convert_serde_to_string serde_json_to_string serde_yaml_to_string toml_to_string v fmt =
        some out ∧
      parse_string_to_serde_json out fmt = Except.ok v := by
  rcases h with rfl | rfl | rfl | rfl
  · exact ⟨_, rfl, parse_mk_printV v "json" (Or.inl rfl)⟩
  · refine ⟨_, rfl, ?_⟩
    have hd : (serde_yaml_to_string v).data = '-' :: '-' :: '-' :: '\n' :: printV v := rfl
    rw [hd, trimStrip_yaml]
    exact parse_mk_printV v "yaml" (Or.inr (Or.inl rfl))
  · refine ⟨_, rfl, ?_⟩
    have hd : (serde_yaml_to_string v).data = '-' :: '-' :: '-' :: '\n' :: printV v := rfl
    rw [hd, trimStrip_yaml]
    exact parse_mk_printV v "yml" (Or.inr (Or.inr (Or.inl rfl)))
  · exact ⟨_, rfl, parse_mk_printV v "toml" (Or.inr (Or.inr (Or.inr rfl)))⟩

/-- Witness for C8 at `Null` in the Yaml format. -/
theorem C8_witness :
    ∃ out,
      convert_serde_to_string serde_json_to_string serde_yaml_to_string toml_to_string
        Value.null "yaml" = some out ∧
      parse_string_to_serde_json out "yaml" = Except.ok Value.null :=
  C8_round_trip Value.null "yaml" (Or.inr (Or.inl rfl))

end MergeLocales
